import Mathlib

/-!
Verification of the `antigravity-auto-accept` repository.

This file gives a shallow embedding, in Lean 4, of the algorithmic core of the
repository (the CDP command channel in `CDPHandler`, the injected automation
agent — session state machine, click classifier, banned-command filter,
analytics — and the cross-instance lock protocol of the extension), and proves
the behavioural properties stated in the design document about that code.

Conventions of the embedding:
* JavaScript strings are Lean `String`s; `String.toLower` style operations are
  mapped over `Char.toLower` (ASCII case mapping, which covers every string the
  program manipulates).
* The host's `RegExp` engine is abstracted as a parameter
  `tryRegex : String → String → Option (String → Bool)`: given the regex body
  and flags it returns `some test` when the pattern compiles and `none` when
  the constructor throws (an invalid pattern).  All theorems quantify over it.
* Timers and socket events are modelled as explicit events processed against
  explicit state, mirroring the single-threaded event-loop semantics of the
  source.
-/

namespace AutoAccept

/-! ## JavaScript string primitives -/

/-- The character class matched by JavaScript `\s` (and removed by
`String.prototype.trim`): ASCII whitespace, NBSP, the Unicode space
separators, the line separators and the BOM. -/
def isJsWs (c : Char) : Bool :=
  c.toNat = 9 || c.toNat = 10 || c.toNat = 11 || c.toNat = 12 || c.toNat = 13 ||
  c.toNat = 32 || c.toNat = 0xA0 || c.toNat = 0x1680 ||
  (0x2000 ≤ c.toNat && c.toNat ≤ 0x200A) ||
  c.toNat = 0x2028 || c.toNat = 0x2029 || c.toNat = 0x202F ||
  c.toNat = 0x205F || c.toNat = 0x3000 || c.toNat = 0xFEFF

/-- Embedding of `String.prototype.trim` on a character list. -/
def jsTrimList (cs : List Char) : List Char :=
  ((cs.dropWhile isJsWs).reverse.dropWhile isJsWs).reverse

/-- Embedding of `String.prototype.trim`. -/
def jsTrim (s : String) : String :=
  (jsTrimList s.toList).asString

/-- Embedding of `String.prototype.toLowerCase` (ASCII case mapping). -/
def jsToLower (s : String) : String :=
  (s.toList.map Char.toLower).asString

/-- Worker for `includes`: tests the needle at every suffix of the haystack. -/
def jsIncludesList (hay needle : List Char) : Bool :=
  needle.isPrefixOf hay ||
    match hay with
    | [] => false
    | _ :: t => jsIncludesList t needle

/-- Embedding of `hay.includes(needle)` for JavaScript strings. -/
def strIncludes (hay needle : String) : Bool :=
  jsIncludesList hay.toList needle.toList

/-- Predicate: `pat` occurs as a case-insensitive substring of `text` (the spec's notion
of a plain-pattern match). -/
def occursCI (pat text : String) : Bool :=
  strIncludes (jsToLower text) (jsToLower pat)

/-- Worker for `lastIndexOf`: carries the index of the last occurrence seen. -/
def jsLastIndexOfAux (c : Char) : List Char → Nat → Option Nat → Option Nat
  | [], _, acc => acc
  | x :: r, i, acc => jsLastIndexOfAux c r (i + 1) (if x = c then some i else acc)

/-- Embedding of `s.lastIndexOf(c)` on a character list: index of the last
occurrence, `none` when absent. -/
def jsLastIndexOf (cs : List Char) (c : Char) : Option Nat :=
  jsLastIndexOfAux c cs 0 none

/-! ## BannedCommandFilter (`isCommandBanned`, cdp-handler.js lines 1111-1154) -/

/-- The test `pattern.startsWith('/') && pattern.lastIndexOf('/') > 0`
classifying a pattern as regex-delimited (`/body/flags`). -/
def isRegexDelimited (p : String) : Bool :=
  (match p.toList with
   | '/' :: _ => true
   | _ => false) &&
  (match jsLastIndexOf p.toList '/' with
   | some i => decide (0 < i)
   | none => false)

/-- Extraction `pattern.substring(1, pattern.lastIndexOf('/'))`: the regex body of a
delimited pattern. -/
def regexBody (p : String) : String :=
  match jsLastIndexOf p.toList '/' with
  | some i => ((p.toList.drop 1).take (i - 1)).asString
  | none => ""

/-- Extraction `pattern.substring(lastSlash + 1) || 'i'`: the flags of a delimited
pattern, defaulting to case-insensitive. -/
def regexFlags (p : String) : String :=
  match jsLastIndexOf p.toList '/' with
  | some i =>
    let f := (p.toList.drop (i + 1)).asString
    if f = "" then "i" else f
  | none => "i"

/-- One iteration of the `for (const banned of bannedList)` loop body applied
to the trimmed pattern `p`: a delimited pattern is compiled and tested against
the original-case text; a pattern that fails to compile (the `catch` branch)
and a plain pattern are matched as a lowercase literal substring. -/
def bannedPatternHit (tryRegex : String → String → Option (String → Bool))
    (commandText lowerText p : String) : Bool :=
  if isRegexDelimited p then
    match tryRegex (regexBody p) (regexFlags p) with
    | some test => test commandText
    | none => strIncludes lowerText (jsToLower p)
  else strIncludes lowerText (jsToLower p)

/-- The pattern loop of `isCommandBanned`: trims each entry, skips empty
patterns, and returns on the first match. -/
def bannedGo (tryRegex : String → String → Option (String → Bool))
    (commandText lowerText : String) : List String → Bool
  | [] => false
  | b :: rest =>
    let p := jsTrim b
    if p = "" then bannedGo tryRegex commandText lowerText rest
    else if bannedPatternHit tryRegex commandText lowerText p then true
    else bannedGo tryRegex commandText lowerText rest

/-- Embedding of `isCommandBanned(commandText)` against the banned list (the
`state.bannedCommands` read is made an explicit argument; the
`Analytics.trackBlocked` side effect touches only the blocked counter, which
no property here depends on). -/
def isCommandBanned (tryRegex : String → String → Option (String → Bool))
    (banned : List String) (commandText : String) : Bool :=
  if banned = [] then false
  else if commandText = "" then false
  else bannedGo tryRegex commandText (jsToLower commandText) banned

/-! ## Analytics (cdp-handler.js lines 615-793) -/

/-- The stats record created by `createDefaultStats` in the agent's Analytics
module. -/
structure SessionStats where
  clicksThisSession : Nat
  blockedThisSession : Nat
  sessionStartTime : Option Int
  fileEditsThisSession : Nat
  terminalCommandsThisSession : Nat
  actionsWhileAway : Nat
  isWindowFocused : Bool
  lastConversationUrl : Option String
  lastConversationStats : Option String
  deriving Repr, DecidableEq

/-- Embedding of `createDefaultStats()`. -/
def createDefaultStats : SessionStats :=
  { clicksThisSession := 0
    blockedThisSession := 0
    sessionStartTime := none
    fileEditsThisSession := 0
    terminalCommandsThisSession := 0
    actionsWhileAway := 0
    isWindowFocused := true
    lastConversationUrl := none
    lastConversationStats := none }

/-- The two click categories of `Analytics.ActionType`. -/
inductive ActionType where
  | file_edit
  | terminal_command
  deriving Repr, DecidableEq

/-- The `TERMINAL_KEYWORDS` constant. -/
def TERMINAL_KEYWORDS : List String := ["run", "execute", "command", "terminal"]

/-- The keyword loop of `categorizeClick`: first matching keyword classifies
as a terminal command, otherwise file edit. -/
def categorizeGo (text : String) : List String → ActionType
  | [] => .file_edit
  | k :: rest => if strIncludes text k then .terminal_command else categorizeGo text rest

/-- Embedding of `Analytics.categorizeClick(buttonText)`. -/
def categorizeClick (buttonText : String) : ActionType :=
  categorizeGo (jsToLower buttonText) TERMINAL_KEYWORDS

/-- Embedding of `Analytics.trackClick(buttonText)`: bumps the session click counter, one
of the two category counters, and the away counter when unfocused. -/
def trackClick (buttonText : String) (s : SessionStats) : SessionStats :=
  let s1 := { s with clicksThisSession := s.clicksThisSession + 1 }
  let s2 :=
    match categorizeClick buttonText with
    | .terminal_command =>
      { s1 with terminalCommandsThisSession := s1.terminalCommandsThisSession + 1 }
    | .file_edit =>
      { s1 with fileEditsThisSession := s1.fileEditsThisSession + 1 }
  if !s2.isWindowFocused then { s2 with actionsWhileAway := s2.actionsWhileAway + 1 }
  else s2

/-! ## Click classifier (`isAcceptButton`, cdp-handler.js lines 1156-1197) -/

/-- JavaScript `\w`: ASCII letters, digits and underscore. -/
def isWordChar (c : Char) : Bool :=
  ('a' ≤ c && c ≤ 'z') || ('A' ≤ c && c ≤ 'Z') || ('0' ≤ c && c ≤ '9') || c = '_'

/-- The zero-width characters removed by the classifier: the regex range
U+200B to U+200D plus U+FEFF. -/
def isZeroWidthChar (c : Char) : Bool :=
  (0x200B ≤ c.toNat && c.toNat ≤ 0x200D) || c.toNat = 0xFEFF

/-- Case-insensitive literal match of `ks` (given lowercase) at the head of
`cs`, returning the remainder on success. -/
def matchCI : List Char → List Char → Option (List Char)
  | [], cs => some cs
  | _ :: _, [] => none
  | k :: ks, c :: cs => if c.toLower = k then matchCI ks cs else none

/-- The alternation `(alt|ctrl|cmd|shift)` of the hint-suffix regex.  The four
alternatives are mutually exclusive at any given position, so first-success
matching agrees with the JavaScript engine. -/
def modifierAfter (cs : List Char) : Option (List Char) :=
  match matchCI ['a', 'l', 't'] cs with
  | some r => some r
  | none =>
    match matchCI ['c', 't', 'r', 'l'] cs with
    | some r => some r
    | none =>
      match matchCI ['c', 'm', 'd'] cs with
      | some r => some r
      | none => matchCI ['s', 'h', 'i', 'f', 't'] cs

/-- The `\s*\+\s*\w+` tail of the hint regex, applied after the modifier
keyword: skip whitespace, require a literal plus, skip whitespace, require at
least one word character, and return the text after the match. -/
def hintTail (cs2 : List Char) : Option (List Char) :=
  match cs2.dropWhile isJsWs with
  | '+' :: cs4 =>
    if ((cs4.dropWhile isJsWs).takeWhile isWordChar).isEmpty then none
    else some ((cs4.dropWhile isJsWs).dropWhile isWordChar)
  | _ => none

/-- One attempted match of `\s*(alt|ctrl|cmd|shift)\s*\+\s*\w+` at the head of
`cs`; on success returns the text after the match.  Each greedy
sub-expression is followed by a literal that cannot match its own character
class, so the deterministic maximal munch used here coincides with the
backtracking engine. -/
def matchHintAt (cs : List Char) : Option (List Char) :=
  (modifierAfter (cs.dropWhile isJsWs)).bind hintTail

theorem length_dropWhile_le (p : Char → Bool) (l : List Char) :
    (l.dropWhile p).length ≤ l.length := by
  induction l with
  | nil => simp [List.dropWhile]
  | cons a t ih =>
    simp only [List.dropWhile]
    cases p a <;> simp
    omega

theorem matchCI_length {ks cs r : List Char} (h : matchCI ks cs = some r) :
    cs.length = ks.length + r.length := by
  induction ks generalizing cs with
  | nil => simp [matchCI] at h; simp [← h]
  | cons k ks ih =>
    cases cs with
    | nil => simp [matchCI] at h
    | cons c t =>
      simp only [matchCI] at h
      split at h
      · have := ih h
        simp [this]
        omega
      · exact absurd h (by simp)

theorem modifierAfter_length {cs r : List Char} (h : modifierAfter cs = some r) :
    r.length < cs.length := by
  unfold modifierAfter at h
  cases h1 : matchCI ['a', 'l', 't'] cs with
  | some r1 =>
    rw [h1] at h; injection h with h; subst h
    have := matchCI_length h1; simp at this; omega
  | none =>
    rw [h1] at h
    cases h2 : matchCI ['c', 't', 'r', 'l'] cs with
    | some r2 =>
      rw [h2] at h; injection h with h; subst h
      have := matchCI_length h2; simp at this; omega
    | none =>
      rw [h2] at h
      cases h3 : matchCI ['c', 'm', 'd'] cs with
      | some r3 =>
        rw [h3] at h; injection h with h; subst h
        have := matchCI_length h3; simp at this; omega
      | none =>
        rw [h3] at h
        have := matchCI_length h
        simp at this; omega

theorem hintTail_length {cs2 r : List Char} (h : hintTail cs2 = some r) :
    r.length < cs2.length := by
  unfold hintTail at h
  have h3 := length_dropWhile_le isJsWs cs2
  split at h
  · rename_i cs4 hplus
    have h4 : cs4.length < (cs2.dropWhile isJsWs).length := by
      rw [hplus]; simp
    have h5 := length_dropWhile_le isJsWs cs4
    split at h
    · exact absurd h (by simp)
    · injection h with h'
      subst h'
      have h6 := length_dropWhile_le isWordChar (cs4.dropWhile isJsWs)
      omega
  · exact absurd h (by simp)

theorem matchHintAt_length {cs r : List Char} (h : matchHintAt cs = some r) :
    r.length < cs.length := by
  unfold matchHintAt at h
  rw [Option.bind_eq_some] at h
  obtain ⟨cs2, hmod, ht⟩ := h
  have h1 := length_dropWhile_le isJsWs cs
  have h2 := modifierAfter_length hmod
  have h3 := hintTail_length ht
  omega

/-- Fuel-indexed worker for `stripHints`.  Every step either removes a match
(which by `matchHintAt_length` consumes at least one character) or emits one
character, so fuel equal to the input length always suffices and the zero-fuel
branch is unreachable from `stripHints`. -/
def stripHintsAux : Nat → List Char → List Char
  | 0, cs => cs
  | n + 1, cs =>
    match matchHintAt cs with
    | some r => stripHintsAux n r
    | none =>
      match cs with
      | [] => []
      | c :: rest => c :: stripHintsAux n rest

/-- The global replace `text.replace(/\s*(alt|ctrl|cmd|shift)\s*\+\s*\w+/gi, '')`:
scan left to right, removing each match and continuing after it. -/
def stripHints (cs : List Char) : List Char :=
  stripHintsAux cs.length cs

/-- Worker for `collapseWs`: `prevWs` records whether the previous character
belonged to a whitespace run whose replacement space was already emitted. -/
def collapseWsAux : Bool → List Char → List Char
  | _, [] => []
  | prevWs, c :: rest =>
    if isJsWs c then
      if prevWs then collapseWsAux true rest
      else ' ' :: collapseWsAux true rest
    else c :: collapseWsAux false rest

/-- The global replace `\s+` → single space (`text.replace(/\s+/g, ' ')`):
every maximal whitespace run is replaced by one space. -/
def collapseWs (cs : List Char) : List Char :=
  collapseWsAux false cs

/-- The text normalization at the head of `isAcceptButton`: trim and
lowercase the raw `textContent`, strip keyboard-hint suffixes, trim again,
drop zero-width characters, collapse whitespace runs. -/
def normalizeText (raw : String) : String :=
  let rawText := (jsTrimList raw.toList).map Char.toLower
  let t1 := jsTrimList (stripHints rawText)
  let t2 := t1.filter (fun c => !(isZeroWidthChar c))
  (collapseWs t2).asString

/-- The acceptance keyword list of `isAcceptButton`. -/
def acceptKeywords : List String :=
  ["accept", "run", "retry", "apply", "execute", "confirm", "allow once",
   "allow", "ok", "yes", "continue", "proceed", "approve", "submit", "save", "done"]

/-- The rejection keyword list of `isAcceptButton`. -/
def rejectKeywords : List String :=
  ["skip", "reject", "cancel", "close", "refine", "dismiss", "no", "decline",
   "deny", "back", "undo", "revert"]

/-- The element-local facts `isAcceptButton` and `performClick` consult.
`elemId` stands for object identity (the `WeakMap` key);
`nearbyCommandText` is the result of `findNearbyCommandText(el)`, whose
sibling-tree walk lies outside this element-local abstraction and is carried
as a field. -/
structure DomElement where
  elemId : Nat
  textContent : String
  nearbyCommandText : String
  display : String
  width : Nat
  pointerEvents : String
  disabled : Bool
  deriving Repr, DecidableEq

/-- The final visibility check of `isAcceptButton`:
`display !== 'none' && rect.width > 0 && pointerEvents !== 'none' && !disabled`. -/
def elementInteractable (el : DomElement) : Bool :=
  el.display ≠ "none" && el.width > 0 && el.pointerEvents ≠ "none" && !el.disabled

/-- Embedding of `isAcceptButton(el)`: normalize the text; reject empty or over-long text;
reject on a rejection keyword; require an acceptance keyword; veto
command-executing buttons whose nearby command text is banned; finally check
interactability. -/
def isAcceptButton (tryRegex : String → String → Option (String → Bool))
    (banned : List String) (el : DomElement) : Bool :=
  let text := normalizeText el.textContent
  if text.length = 0 ∨ text.length > 50 then false
  else if rejectKeywords.any (fun r => strIncludes text r) then false
  else if !(acceptKeywords.any (fun p => strIncludes text p)) then false
  else
    let isCommandButton :=
      strIncludes text "run command" || strIncludes text "execute" || strIncludes text "run"
    if isCommandButton && isCommandBanned tryRegex banned el.nearbyCommandText then false
    else elementInteractable el

/-! ## Agent session state (`window.__autoAcceptState`) and
`__autoAcceptStart` / `__autoAcceptStop` (cdp-handler.js lines 1481-1564) -/

/-- The agent's global state object.  `completionStatus` and `startTimes` are
association lists mirroring the plain objects; `isBackgroundMode` is `none`
before the first `__autoAcceptStart` sets it (the field is absent from the
freshly initialized state object). -/
structure AgentState where
  isRunning : Bool
  tabNames : List String
  completionStatus : List (String × String)
  sessionID : Nat
  currentMode : Option String
  isBackgroundMode : Option Bool
  bannedCommands : List String
  stats : SessionStats
  deriving Repr, DecidableEq

/-- The state object created by `Analytics.initialize` on first injection
(`sessionStartTime` is then set to the current time). -/
def agentInit (now : Int) : AgentState :=
  { isRunning := false
    tabNames := []
    completionStatus := []
    sessionID := 0
    currentMode := none
    isBackgroundMode := none
    bannedCommands := []
    stats := { createDefaultStats with sessionStartTime := some now } }

/-- The configuration object pushed by the controller
(`{mode, isBackgroundMode, pollInterval, bannedCommands}`); absent fields are
`none`. -/
structure StartConfig where
  ide : Option String
  isBackgroundMode : Option Bool
  pollInterval : Option Nat
  bannedCommands : Option (List String)
  deriving Repr, DecidableEq

/-- The computation `(config.ide || 'cursor').toLowerCase()` (an absent or
empty string falls back to the default). -/
def cfgIde (cfg : StartConfig) : String :=
  jsToLower (match cfg.ide with
             | some s => if s = "" then "cursor" else s
             | none => "cursor")

/-- The computation `config.isBackgroundMode === true`. -/
def cfgIsBG (cfg : StartConfig) : Bool :=
  cfg.isBackgroundMode = some true

/-- The three loop bodies `__autoAcceptStart` can launch. -/
inductive LoopKind where
  | cursorL
  | antigravityL
  | staticL
  deriving Repr, DecidableEq

/-- Embedding of `window.__autoAcceptStart(config)`.  Returns the updated
state together with `some (loop, sid)` when a fresh loop body is launched for
generation `sid`, and `none` on the identical-configuration no-op path.  The
`updateBannedCommands` call precedes the no-op check, exactly as in the
source; the transient `isRunning = false` write before relaunch is absorbed
into the final record. -/
def autoAcceptStart (cfg : StartConfig) (now : Int) (s : AgentState) :
    AgentState × Option (LoopKind × Nat) :=
  let ide := cfgIde cfg
  let isBG := cfgIsBG cfg
  let s0 :=
    match cfg.bannedCommands with
    | some l => { s with bannedCommands := l }
    | none => s
  if s0.isRunning = true ∧ s0.currentMode = some ide ∧ s0.isBackgroundMode = some isBG then
    (s0, none)
  else
    let s1 :=
      { s0 with
        isRunning := true
        currentMode := some ide
        isBackgroundMode := some isBG
        sessionID := s0.sessionID + 1
        stats :=
          if s0.stats.sessionStartTime = none then
            { s0.stats with sessionStartTime := some now }
          else s0.stats }
    let kind :=
      if isBG then (if ide = "cursor" then LoopKind.cursorL else LoopKind.antigravityL)
      else LoopKind.staticL
    (s1, some (kind, s1.sessionID))

/-- Embedding of `window.__autoAcceptStop()` (the overlay manipulation is
visual only). -/
def autoAcceptStop (s : AgentState) : AgentState :=
  { s with isRunning := false }

/-- The iteration-boundary guard shared verbatim by the three loop bodies:
`while (state.isRunning && state.sessionID === sid)` (cursorLoop line 1276,
antigravityLoop line 1352, the static poll loop line 1526). -/
def loopContinues (s : AgentState) (sid : Nat) : Bool :=
  s.isRunning && s.sessionID == sid

/-- Number of loop iterations a body launched for generation `sid` executes,
given the sequence of states it observes at successive boundary checks. -/
def loopObserve (sid : Nat) : List AgentState → Nat
  | [] => 0
  | s :: rest => if loopContinues s sid then loopObserve sid rest + 1 else 0

/-! ## performClick and the per-element cooldown
(cdp-handler.js lines 1222-1270, constant at line 866) -/

/-- The `CLICK_COOLDOWN_MS` constant. -/
def CLICK_COOLDOWN_MS : Int := 5000

/-- Association-list model of the `clickedTimestamps` WeakMap, keyed by
element identity. -/
def wmLookup (m : List (Nat × Int)) (k : Nat) : Option Int :=
  match m with
  | [] => none
  | e :: r => if e.1 = k then some e.2 else wmLookup r k

/-- Update of the `clickedTimestamps` WeakMap (`Map.set` semantics). -/
def wmSet (m : List (Nat × Int)) (k : Nat) (v : Int) : List (Nat × Int) :=
  match m with
  | [] => [(k, v)]
  | e :: r => if e.1 = k then (k, v) :: r else e :: wmSet r k v

/-- The guard `lastClickTime && (now - lastClickTime) < CLICK_COOLDOWN_MS`:
a recorded timestamp is truthy (nonzero) and younger than the cooldown. -/
def cooldownActive (t? : Option Int) (now : Int) : Bool :=
  match t? with
  | none => false
  | some t => t ≠ 0 && now - t < CLICK_COOLDOWN_MS

/-- The mutable context threaded through one `performClick` pass: the
timestamp map, the analytics stats, and the `clicked` / `verified`
counters. -/
structure ClickCtx where
  timestamps : List (Nat × Int)
  stats : SessionStats
  clicked : Nat
  verified : Nat
  deriving Repr, DecidableEq

/-- The body of the `for (const el of uniqueFound)` loop of `performClick`:
skip an element inside its cooldown window; otherwise classify it, record the
click time, dispatch the clicks and track the click (the click is tracked on
both branches of the 500ms disappearance wait, so the wait is not modelled). -/
def processElement (tryRegex : String → String → Option (String → Bool))
    (banned : List String) (now : Int) (ctx : ClickCtx) (el : DomElement) : ClickCtx :=
  if cooldownActive (wmLookup ctx.timestamps el.elemId) now then ctx
  else if isAcceptButton tryRegex banned el then
    { timestamps := wmSet ctx.timestamps el.elemId now
      stats := trackClick (jsTrim el.textContent) ctx.stats
      clicked := ctx.clicked + 1
      verified := ctx.verified + 1 }
  else ctx

/-- One `performClick` pass over the deduplicated element list, with `now`
sampled once before the loop as in the source. -/
def performClick (tryRegex : String → String → Option (String → Bool))
    (banned : List String) (now : Int) (els : List DomElement) (ctx : ClickCtx) : ClickCtx :=
  els.foldl (processElement tryRegex banned now) ctx

/-! ## InstanceLock (extension.js `startPolling`, lines 368-404) -/

/-- The world visible to one poll tick: the shared lock record
(`<ide>-instance-lock` and its `-ping` companion in `globalState`), the
enabled flag, the standby flag `isLockedOut`, and whether a CDP handler
exists (consulted by `syncSessions`). -/
structure LockWorld where
  lockOwner : Option String
  lockPing : Option Int
  isEnabled : Bool
  isLockedOut : Bool
  hasCdp : Bool
  deriving Repr, DecidableEq

/-- Result of one tick: the updated world and whether `syncSessions`
performed a sync (`cdpHandler && !isLockedOut`). -/
structure TickResult where
  world : LockWorld
  didSync : Bool
  deriving Repr, DecidableEq

/-- Embedding of the `setInterval` callback body of `startPolling`: a tick
observing a truthy foreign owner with a truthy heartbeat younger than 15000ms
enters standby and returns before the writes; every other enabled tick writes
its own id and the current time, clears standby and syncs.  Logging and
status-bar updates are omitted. -/
def pollTick (myId : String) (now : Int) (w : LockWorld) : TickResult :=
  if !w.isEnabled then ⟨w, false⟩
  else
    let standby :=
      match w.lockOwner with
      | some owner =>
        if owner ≠ "" ∧ owner ≠ myId then
          match w.lockPing with
          | some p => p ≠ 0 && now - p < 15000
          | none => false
        else false
      | none => false
    if standby then ⟨{ w with isLockedOut := true }, false⟩
    else
      let w1 := { w with lockOwner := some myId, lockPing := some now, isLockedOut := false }
      ⟨w1, w1.hasCdp && !w1.isLockedOut⟩

/-! ## CommandChannel (CDPHandler `sendCommand` lines 465-479, the ws
handlers of `connectToPage` lines 378-404)

The JavaScript runtime is a single-threaded event loop, so the lifecycle of
the `pendingMessages` table is the sequential processing of discrete events:
a `sendCommand` call registering `messageId++`, a socket `message` delivering
a response for some id, the 2000ms `setTimeout` callback of some command
firing, and socket `open`/`close`/`error` callbacks.  The model below applies
those events to explicit channel state; `completions` logs every settlement
of a promise (resolve, reject on an error response, or reject on timeout). -/

/-- How a command's promise was settled. -/
inductive CompKind where
  | resolved
  | rejectedErr
  | timedOut
  deriving Repr, DecidableEq

/-- The controller-side channel state: the `messageId` counter, the ids in
`pendingMessages`, the settlement log, and the keys of `connections`. -/
structure Chan where
  nextId : Nat
  pending : List Nat
  completions : List (Nat × CompKind)
  connections : List String
  deriving Repr, DecidableEq

/-- The constructor state of `CDPHandler` (`messageId = 1`, empty tables). -/
def chanInit : Chan :=
  { nextId := 1, pending := [], completions := [], connections := [] }

/-- The events that touch the channel state. -/
inductive ChanEv where
  | send (pid : String)
  | response (id : Nat) (isErr : Bool)
  | timerFire (id : Nat)
  | sockOpen (pid : String)
  | sockClose (pid : String)
  | sockError (pid : String)
  deriving Repr, DecidableEq

/-- One event against the channel state, following the source handlers:
`send` registers `messageId++` when the connection is alive (otherwise the
call rejects with 'dead' before an id is assigned); a `message` whose truthy
id is pending settles and evicts it (`msg.error ? rej : res`); a timeout
callback that still finds its id pending evicts and rejects it; socket close
and error delete the connection entry. -/
def chanStep (s : Chan) (e : ChanEv) : Chan :=
  match e with
  | .send pid =>
    if pid ∈ s.connections then
      { s with pending := s.pending ++ [s.nextId], nextId := s.nextId + 1 }
    else s
  | .response id isErr =>
    if id ≠ 0 ∧ id ∈ s.pending then
      { s with
        pending := s.pending.erase id
        completions := s.completions ++ [(id, if isErr then .rejectedErr else .resolved)] }
    else s
  | .timerFire id =>
    if id ∈ s.pending then
      { s with
        pending := s.pending.erase id
        completions := s.completions ++ [(id, .timedOut)] }
    else s
  | .sockOpen pid =>
    if pid ∈ s.connections then s else { s with connections := s.connections ++ [pid] }
  | .sockClose pid => { s with connections := s.connections.erase pid }
  | .sockError pid => { s with connections := s.connections.erase pid }

/-- Processing of an event sequence. -/
def chanRun (s : Chan) (evs : List ChanEv) : Chan :=
  evs.foldl chanStep s

/-- Settlements logged for a given id. -/
def completionsFor (id : Nat) (s : Chan) : List (Nat × CompKind) :=
  s.completions.filter (fun c => c.1 = id)

/-- Number of settlements for a given id. -/
def compCount (id : Nat) (s : Chan) : Nat :=
  (completionsFor id s).length

/-- The reachable-state invariant of the channel: the id counter is positive
(it starts at 1); pending ids are distinct, truthy and below the id counter;
settled ids are below the counter and distinct; no id is both pending and
settled. -/
def ChanInv (s : Chan) : Prop :=
  0 < s.nextId ∧
  s.pending.Nodup ∧
  (∀ id ∈ s.pending, 0 < id ∧ id < s.nextId) ∧
  (∀ c ∈ s.completions, c.1 < s.nextId) ∧
  (s.completions.map Prod.fst).Nodup ∧
  (∀ id ∈ s.pending, id ∉ s.completions.map Prod.fst)

instance : DecidablePred ChanInv := fun s => by
  unfold ChanInv
  infer_instance

/-! ## Theorems: Analytics (C10) -/

theorem categorizeGo_eq_any (text : String) (l : List String) :
    categorizeGo text l =
      (if l.any (fun k => strIncludes text k) then ActionType.terminal_command
       else ActionType.file_edit) := by
  induction l with
  | nil => simp [categorizeGo]
  | cons k rest ih =>
    simp only [categorizeGo, List.any_cons]
    by_cases h : strIncludes text k = true
    · simp [h]
    · simp only [Bool.not_eq_true] at h
      simp [h, ih]

theorem trackClick_counter_fields (t : String) (s : SessionStats) :
    (trackClick t s).clicksThisSession = s.clicksThisSession + 1 ∧
    (trackClick t s).terminalCommandsThisSession =
      s.terminalCommandsThisSession +
        (if categorizeClick t = ActionType.terminal_command then 1 else 0) ∧
    (trackClick t s).fileEditsThisSession =
      s.fileEditsThisSession +
        (if categorizeClick t = ActionType.terminal_command then 0 else 1) := by
  unfold trackClick
  cases h : categorizeClick t <;>
    simp only [h] <;>
    (by_cases hf : s.isWindowFocused <;> simp [hf])

/-- C10: starting from the default stats, any sequence of `trackClick` calls
maintains `clicksThisSession = fileEditsThisSession +
terminalCommandsThisSession`; each call adds one to the click counter and to
exactly one category counter, the terminal one exactly when the lowercased
button text contains one of run/execute/command/terminal. -/
theorem trackClick_category_sum_invariant (texts : List String) (t : String)
    (s : SessionStats) :
    ((texts.foldl (fun a b => trackClick b a) createDefaultStats).clicksThisSession =
      (texts.foldl (fun a b => trackClick b a) createDefaultStats).fileEditsThisSession +
      (texts.foldl (fun a b => trackClick b a) createDefaultStats).terminalCommandsThisSession) ∧
    (trackClick t s).clicksThisSession = s.clicksThisSession + 1 ∧
    (trackClick t s).terminalCommandsThisSession =
      s.terminalCommandsThisSession +
        (if categorizeClick t = ActionType.terminal_command then 1 else 0) ∧
    (trackClick t s).fileEditsThisSession =
      s.fileEditsThisSession +
        (if categorizeClick t = ActionType.terminal_command then 0 else 1) ∧
    (categorizeClick t = ActionType.terminal_command ↔
      TERMINAL_KEYWORDS.any (fun k => strIncludes (jsToLower t) k) = true) := by
  refine ⟨?_, (trackClick_counter_fields t s).1, (trackClick_counter_fields t s).2.1,
    (trackClick_counter_fields t s).2.2, ?_⟩
  · have main : ∀ (ts : List String) (a : SessionStats),
        a.clicksThisSession = a.fileEditsThisSession + a.terminalCommandsThisSession →
        (ts.foldl (fun x b => trackClick b x) a).clicksThisSession =
          (ts.foldl (fun x b => trackClick b x) a).fileEditsThisSession +
          (ts.foldl (fun x b => trackClick b x) a).terminalCommandsThisSession := by
      intro ts
      induction ts with
      | nil => intro a ha; simpa using ha
      | cons x rest ih =>
        intro a ha
        simp only [List.foldl_cons]
        apply ih
        obtain ⟨hc, htc, hfe⟩ := trackClick_counter_fields x a
        rw [hc, htc, hfe, ha]
        by_cases h : categorizeClick x = ActionType.terminal_command <;> simp [h] <;> omega
    exact main texts createDefaultStats rfl
  · rw [categorizeClick, categorizeGo_eq_any]
    by_cases h : TERMINAL_KEYWORDS.any (fun k => strIncludes (jsToLower t) k) = true
    · simp [h]
    · simp only [Bool.not_eq_true] at h
      simp [h]

/-! ## Theorems: session generation (C2, C4) -/

/-- C2: `__autoAcceptStart` leaves `sessionID` unchanged on the no-op path
and advances it by exactly one whenever it launches a loop body, the
launched body receives the fresh generation, `__autoAcceptStop` never
changes the generation (so the generation is strictly increasing across the
state's lifetime), and every loop body stops at its very next boundary check
once `isRunning` is false or the generation is no longer its own — the guard
`state.isRunning && state.sessionID === sid` being the sole cancellation
check of all three loop bodies. -/
theorem autoAcceptStart_cases (cfg : StartConfig) (now : Int) (s : AgentState) :
    ((autoAcceptStart cfg now s).2 = none ∧
      (autoAcceptStart cfg now s).1.sessionID = s.sessionID) ∨
    ((∃ k, (autoAcceptStart cfg now s).2 = some (k, s.sessionID + 1)) ∧
      (autoAcceptStart cfg now s).1.sessionID = s.sessionID + 1) := by
  unfold autoAcceptStart
  cases hb : cfg.bannedCommands <;> dsimp only <;> split <;>
    first
      | (left; exact ⟨rfl, rfl⟩)
      | (right; exact ⟨⟨_, rfl⟩, rfl⟩)

theorem sessionGeneration_strictly_increasing (cfg : StartConfig) (now : Int)
    (s : AgentState) (g : Nat) (obs : List AgentState) :
    ((autoAcceptStart cfg now s).2 = none →
      (autoAcceptStart cfg now s).1.sessionID = s.sessionID) ∧
    ((autoAcceptStart cfg now s).2 ≠ none →
      (autoAcceptStart cfg now s).1.sessionID = s.sessionID + 1) ∧
    (∀ k sid, (autoAcceptStart cfg now s).2 = some (k, sid) → sid = s.sessionID + 1) ∧
    (autoAcceptStop s).sessionID = s.sessionID ∧
    (s.isRunning = false ∨ s.sessionID ≠ g → loopObserve g (s :: obs) = 0) := by
  rcases autoAcceptStart_cases cfg now s with ⟨h1, h2⟩ | ⟨⟨k0, h1⟩, h2⟩
  · refine ⟨fun _ => h2, fun h => absurd h1 h, ?_, rfl, ?_⟩
    · intro k sid h
      rw [h1] at h
      cases h
    · intro h
      rcases h with h | h <;> simp [loopObserve, loopContinues, h]
  · refine ⟨?_, fun _ => h2, ?_, rfl, ?_⟩
    · intro h
      rw [h1] at h
      cases h
    · intro k sid h
      rw [h1] at h
      injection h with h
      injection h with _ h
      omega
    · intro h
      rcases h with h | h <;> simp [loopObserve, loopContinues, h]

/-- Witness for C2 at a concrete input: the first `start` on a fresh state
launches a loop and bumps the generation to 1, and a loop observing a stopped
state runs zero iterations. -/
theorem sessionGeneration_strictly_increasing_witness :
    (autoAcceptStart ⟨some "cursor", some true, none, none⟩ 0 (agentInit 0)).1.sessionID
      = (agentInit 0).sessionID + 1 ∧
    loopObserve 1 [agentInit 0] = 0 :=
  ⟨(sessionGeneration_strictly_increasing ⟨some "cursor", some true, none, none⟩ 0
      (agentInit 0) 1 []).2.1 (by decide),
   (sessionGeneration_strictly_increasing ⟨some "cursor", some true, none, none⟩ 0
      (agentInit 0) 1 []).2.2.2.2 (Or.inl (by decide))⟩

/-- C4: a `start` while running with identical lowercased ide and identical
background flag is a session no-op: no loop body is launched and
`sessionID` does not advance. -/
theorem start_identical_config_noop (cfg : StartConfig) (now : Int) (s : AgentState)
    (h1 : s.isRunning = true) (h2 : s.currentMode = some (cfgIde cfg))
    (h3 : s.isBackgroundMode = some (cfgIsBG cfg)) :
    (autoAcceptStart cfg now s).2 = none ∧
    (autoAcceptStart cfg now s).1.sessionID = s.sessionID := by
  unfold autoAcceptStart
  cases hb : cfg.bannedCommands <;> simp [hb, h1, h2, h3]

/-- Witness for C4 at a concrete input: a repeated background-cursor `start`
on a running background-cursor session launches nothing and keeps
generation 3. -/
theorem start_identical_config_noop_witness :
    (autoAcceptStart ⟨some "cursor", some true, none, none⟩ 7
        ⟨true, [], [], 3, some "cursor", some true, [], createDefaultStats⟩).2 = none ∧
    (autoAcceptStart ⟨some "cursor", some true, none, none⟩ 7
        ⟨true, [], [], 3, some "cursor", some true, [], createDefaultStats⟩).1.sessionID = 3 :=
  start_identical_config_noop ⟨some "cursor", some true, none, none⟩ 7
    ⟨true, [], [], 3, some "cursor", some true, [], createDefaultStats⟩
    rfl (by decide) (by decide)

/-! ## Theorems: InstanceLock (C9) -/

/-- C9: on an enabled tick, a lock record owned by a different instance with
a heartbeat younger than 15000ms puts this instance in standby — the shared
record is not written and no sync happens — while a foreign record whose
heartbeat is absent or at least 15000ms old is overwritten with this
instance's id and the current time, standby is cleared, and the tick proceeds
to sync (`syncSessions` runs its body exactly when a CDP handler exists). -/
theorem instanceLock_standby_and_acquire (myId a : String) (now p : Int)
    (w : LockWorld) (hEn : w.isEnabled = true) (hOwn : w.lockOwner = some a)
    (hne : a ≠ myId) (hnn : a ≠ "") :
    (w.lockPing = some p → p ≠ 0 → now - p < 15000 →
      (pollTick myId now w).world = { w with isLockedOut := true } ∧
      (pollTick myId now w).didSync = false) ∧
    ((w.lockPing = none ∨ (w.lockPing = some p ∧ 15000 ≤ now - p)) →
      (pollTick myId now w).world.lockOwner = some myId ∧
      (pollTick myId now w).world.lockPing = some now ∧
      (pollTick myId now w).world.isLockedOut = false ∧
      (pollTick myId now w).didSync = w.hasCdp) := by
  constructor
  · intro hping hp0 hfresh
    simp [pollTick, hEn, hOwn, hping, hnn, hne, hp0, hfresh]
  · intro hstale
    rcases hstale with hnone | ⟨hping, hold⟩
    · simp [pollTick, hEn, hOwn, hnone, hnn, hne]
    · have hnf : ¬(now - p < 15000) := by omega
      simp [pollTick, hEn, hOwn, hping, hnn, hne, hnf]

/-- Witness for C9 at concrete inputs: with owner "A" and heartbeat at time
100, instance "B" at time 1000 stands by without touching the record, and at
time 20000 acquires and syncs. -/
theorem instanceLock_standby_and_acquire_witness :
    (pollTick "B" 1000 ⟨some "A", some 100, true, false, true⟩).world
        = ⟨some "A", some 100, true, true, true⟩ ∧
    (pollTick "B" 1000 ⟨some "A", some 100, true, false, true⟩).didSync = false ∧
    (pollTick "B" 20000 ⟨some "A", some 100, true, false, true⟩).world.lockOwner = some "B" ∧
    (pollTick "B" 20000 ⟨some "A", some 100, true, false, true⟩).world.lockPing = some 20000 ∧
    (pollTick "B" 20000 ⟨some "A", some 100, true, false, true⟩).didSync = true := by
  have h1 := (instanceLock_standby_and_acquire "B" "A" 1000 100
      ⟨some "A", some 100, true, false, true⟩ rfl rfl (by decide) (by decide)).1
      rfl (by decide) (by decide)
  have h2 := (instanceLock_standby_and_acquire "B" "A" 20000 100
      ⟨some "A", some 100, true, false, true⟩ rfl rfl (by decide) (by decide)).2
      (Or.inr ⟨rfl, by decide⟩)
  exact ⟨h1.1, h1.2, h2.1, h2.2.1, h2.2.2.2⟩

/-! ## Theorems: click cooldown (C8) -/

theorem wmLookup_wmSet_self (m : List (Nat × Int)) (k : Nat) (v : Int) :
    wmLookup (wmSet m k v) k = some v := by
  induction m with
  | nil => simp [wmSet, wmLookup]
  | cons e r ih =>
    by_cases h : e.1 = k
    · simp [wmSet, wmLookup, h]
    · simp [wmSet, wmLookup, h, ih]

/-- C8: an element whose recorded click timestamp (a genuine, nonzero clock
value) is younger than `CLICK_COOLDOWN_MS` is skipped by the `performClick`
loop body — the context, including stats and the timestamp map, is completely
unchanged, for the single-element pass as well; once the cooldown has
elapsed the element is processed again, and if it classifies as an accept
button it is clicked, tracked, and restamped with the current time. -/
theorem performClick_cooldown_window
    (tryRegex : String → String → Option (String → Bool)) (banned : List String)
    (now t : Int) (ctx : ClickCtx) (el : DomElement)
    (hrec : wmLookup ctx.timestamps el.elemId = some t) :
    (0 < t → now - t < CLICK_COOLDOWN_MS →
      processElement tryRegex banned now ctx el = ctx ∧
      performClick tryRegex banned now [el] ctx = ctx) ∧
    (CLICK_COOLDOWN_MS ≤ now - t → isAcceptButton tryRegex banned el = true →
      (processElement tryRegex banned now ctx el).clicked = ctx.clicked + 1 ∧
      (processElement tryRegex banned now ctx el).stats
        = trackClick (jsTrim el.textContent) ctx.stats ∧
      wmLookup (processElement tryRegex banned now ctx el).timestamps el.elemId
        = some now) := by
  constructor
  · intro hpos hfresh
    have hcd : cooldownActive (wmLookup ctx.timestamps el.elemId) now = true := by
      rw [hrec]
      have : t ≠ 0 := by omega
      simp [cooldownActive, this, hfresh]
    have hskip : processElement tryRegex banned now ctx el = ctx := by
      unfold processElement
      rw [if_pos hcd]
    exact ⟨hskip, by simpa [performClick] using hskip⟩
  · intro hold hbtn
    have hcd : cooldownActive (wmLookup ctx.timestamps el.elemId) now = false := by
      rw [hrec]
      have : ¬(now - t < CLICK_COOLDOWN_MS) := by omega
      simp [cooldownActive, this]
    unfold processElement
    rw [hcd, hbtn]
    simp [wmLookup_wmSet_self]

/-- Witness for C8 at concrete inputs: with the timestamp of element 1
recorded at time 100, a pass at time 4000 changes nothing, and a pass at
time 6000 clicks the (accept-classified) element and restamps it. -/
theorem performClick_cooldown_window_witness :
    processElement (fun _ _ => none) [] 4000
        ⟨[(1, 100)], createDefaultStats, 0, 0⟩ ⟨1, "Accept", "", "flex", 10, "auto", false⟩
      = ⟨[(1, 100)], createDefaultStats, 0, 0⟩ ∧
    (processElement (fun _ _ => none) [] 6000
        ⟨[(1, 100)], createDefaultStats, 0, 0⟩ ⟨1, "Accept", "", "flex", 10, "auto", false⟩).clicked
      = 1 ∧
    wmLookup (processElement (fun _ _ => none) [] 6000
        ⟨[(1, 100)], createDefaultStats, 0, 0⟩
        ⟨1, "Accept", "", "flex", 10, "auto", false⟩).timestamps 1
      = some 6000 := by
  have h1 := (performClick_cooldown_window (fun _ _ => none) [] 4000 100
      ⟨[(1, 100)], createDefaultStats, 0, 0⟩ ⟨1, "Accept", "", "flex", 10, "auto", false⟩
      rfl).1 (by decide) (by decide)
  have h2 := (performClick_cooldown_window (fun _ _ => none) [] 6000 100
      ⟨[(1, 100)], createDefaultStats, 0, 0⟩ ⟨1, "Accept", "", "flex", 10, "auto", false⟩
      rfl).2 (by decide) (by decide)
  exact ⟨h1.1, h2.1, h2.2.2⟩

/-! ## Theorems: BannedCommandFilter (C5, C6) -/

/-- Counterexample to C5 as stated: the code trims each pattern before
matching, so the plain (non-regex-delimited) pattern "rm " bans the command
text "rm" even though "rm " does not occur as a case-insensitive substring of
"rm". -/
theorem isBanned_plain_substring_counterexample :
    isCommandBanned (fun _ _ => none) ["rm "] "rm" = true ∧
    occursCI "rm " "rm" = false ∧
    isRegexDelimited "rm " = false := by
  decide

/-- C5 (amended): the empty pattern list never bans; a pattern whose trimmed
form is plain (non-regex-delimited) and nonempty matches exactly when that
trimmed form occurs as a case-insensitive substring of a nonempty command
text; and the documented example bans "sudo rm -rf /tmp/x" under the pattern
"rm -rf /". -/
theorem isBanned_empty_and_trimmed_substring
    (tryRegex : String → String → Option (String → Bool)) (text p : String)
    (hplain : isRegexDelimited (jsTrim p) = false) (hne : jsTrim p ≠ "") :
    isCommandBanned tryRegex [] text = false ∧
    isCommandBanned tryRegex [p] text
      = (decide (text ≠ "") && occursCI (jsTrim p) text) ∧
    isCommandBanned (fun _ _ => none) ["rm -rf /"] "sudo rm -rf /tmp/x" = true := by
  refine ⟨by simp [isCommandBanned], ?_, by decide⟩
  unfold isCommandBanned
  by_cases ht : text = ""
  · simp [ht]
  · have hl : ([p] : List String) ≠ [] := by simp
    rw [if_neg hl, if_neg ht]
    unfold bannedGo
    rw [if_neg hne]
    unfold bannedPatternHit
    rw [hplain]
    simp only [Bool.if_false_right, Bool.if_true_left]
    simp [occursCI, ht, bannedGo]

/-- Witness for C5's amended theorem at a concrete input: the padded plain
pattern " rm " matches "xx rm yy" through its trimmed form. -/
theorem isBanned_empty_and_trimmed_substring_witness :
    isCommandBanned (fun _ _ => none) [] "xx rm yy" = false ∧
    isCommandBanned (fun _ _ => none) [" rm "] "xx rm yy"
      = (decide (("xx rm yy" : String) ≠ "") && occursCI (jsTrim " rm ") "xx rm yy") ∧
    isCommandBanned (fun _ _ => none) ["rm -rf /"] "sudo rm -rf /tmp/x" = true :=
  isBanned_empty_and_trimmed_substring (fun _ _ => none) "xx rm yy" " rm "
    (by decide) (by decide)

theorem bannedGo_true_of_hit
    (tryRegex : String → String → Option (String → Bool)) (text lowerText : String)
    {l : List String} {b : String} (hb : b ∈ l) (hne : jsTrim b ≠ "")
    (hhit : bannedPatternHit tryRegex text lowerText (jsTrim b) = true) :
    bannedGo tryRegex text lowerText l = true := by
  induction l with
  | nil => cases hb
  | cons x rest ih =>
    rcases List.mem_cons.mp hb with rfl | hmem
    · unfold bannedGo
      rw [if_neg hne, if_pos hhit]
    · unfold bannedGo
      by_cases hx : jsTrim x = ""
      · rw [if_pos hx]
        exact ih hmem
      · rw [if_neg hx]
        by_cases hh : bannedPatternHit tryRegex text lowerText (jsTrim x) = true
        · rw [if_pos hh]

        · rw [if_neg hh]
          exact ih hmem

/-- C6: a banned-list entry whose trimmed form is regex-delimited but fails
to compile degrades to matching that raw (trimmed) pattern text as a
case-insensitive literal substring: the command is still banned whenever the
pattern text occurs in the command text, wherever the entry sits in the
list. -/
theorem invalid_regex_falls_back_to_literal
    (tryRegex : String → String → Option (String → Bool)) (text : String)
    (l : List String) (p : String) (hmem : p ∈ l)
    (hdelim : isRegexDelimited (jsTrim p) = true)
    (hbad : tryRegex (regexBody (jsTrim p)) (regexFlags (jsTrim p)) = none)
    (hocc : occursCI (jsTrim p) text = true) (htext : text ≠ "") :
    isCommandBanned tryRegex l text = true := by
  have hne : jsTrim p ≠ "" := by
    intro h
    rw [h] at hdelim
    exact absurd hdelim (by decide)
  have hl : l ≠ [] := by
    intro h
    rw [h] at hmem
    cases hmem
  unfold isCommandBanned
  rw [if_neg hl, if_neg htext]
  refine bannedGo_true_of_hit tryRegex text (jsToLower text) hmem hne ?_
  unfold bannedPatternHit
  rw [hdelim, hbad]
  simpa [occursCI] using hocc

/-- Witness for C6 at a concrete input: the invalid delimited pattern
"/[x/(" (unbalanced bracket) still bans a command text that contains it
literally, even behind an earlier non-matching entry. -/
theorem invalid_regex_falls_back_to_literal_witness :
    isCommandBanned (fun _ _ => none) ["harmless", "/[x/("] "echo /[x/( done" = true :=
  invalid_regex_falls_back_to_literal (fun _ _ => none) "echo /[x/( done"
    ["harmless", "/[x/("] "/[x/(" (by decide) (by decide) rfl (by decide) (by decide)

/-! ## Theorems: click classifier (C7) -/

/-- C7: `isAcceptButton` returns false whenever the normalized text (hint
suffixes stripped, zero-width characters removed, whitespace collapsed,
lowercased) is empty or longer than 50 characters, and returns false whenever
that normalized text contains any rejection keyword — the reject check sits
before the accept check, so it wins even when an acceptance keyword is also
present. -/
theorem isAcceptButton_rejects_empty_long_and_reject_keywords
    (tryRegex : String → String → Option (String → Bool)) (banned : List String)
    (el : DomElement) :
    ((normalizeText el.textContent).length = 0 ∨
        50 < (normalizeText el.textContent).length →
      isAcceptButton tryRegex banned el = false) ∧
    (∀ r ∈ rejectKeywords, strIncludes (normalizeText el.textContent) r = true →
      isAcceptButton tryRegex banned el = false) := by
  constructor
  · intro h
    simp only [isAcceptButton]
    rw [if_pos h]
  · intro r hr hs
    simp only [isAcceptButton]
    by_cases h1 : (normalizeText el.textContent).length = 0 ∨
        50 < (normalizeText el.textContent).length
    · rw [if_pos h1]
    · rw [if_neg h1]
      have hany : (rejectKeywords.any
          (fun q => strIncludes (normalizeText el.textContent) q)) = true :=
        List.any_eq_true.mpr ⟨r, hr, hs⟩
      rw [if_pos hany]

/-- Witness for C7 at concrete inputs: an element whose text normalizes to a
51-character string is refused, and an element reading "Accept and Skip
All" is refused because of the rejection keyword "skip" despite containing
"accept". -/
theorem isAcceptButton_rejects_empty_long_and_reject_keywords_witness :
    isAcceptButton (fun _ _ => none) []
        ⟨1, "aaaaaaaaaaaaaaaaaaaaaaaaaaaaaaaaaaaaaaaaaaaaaaaaaaa", "", "flex", 10, "auto", false⟩
      = false ∧
    isAcceptButton (fun _ _ => none) []
        ⟨2, "Accept and Skip All", "", "flex", 10, "auto", false⟩
      = false :=
  ⟨(isAcceptButton_rejects_empty_long_and_reject_keywords (fun _ _ => none) []
      ⟨1, "aaaaaaaaaaaaaaaaaaaaaaaaaaaaaaaaaaaaaaaaaaaaaaaaaaa", "", "flex", 10, "auto", false⟩).1
      (Or.inr (by decide)),
   (isAcceptButton_rejects_empty_long_and_reject_keywords (fun _ _ => none) []
      ⟨2, "Accept and Skip All", "", "flex", 10, "auto", false⟩).2
      "skip" (by decide) (by decide)⟩

/-! ## Theorems: CommandChannel (C1, C3) -/

theorem filterFst_length_eq_count (l : List (Nat × CompKind)) (id : Nat) :
    (l.filter (fun c => c.1 = id)).length = (l.map Prod.fst).count id := by
  induction l with
  | nil => simp
  | cons a t ih =>
    by_cases h : a.1 = id
    · simp [List.count_cons, h, ih]
    · simp [List.count_cons, h, ih]

theorem filterFst_eq_nil {l : List (Nat × CompKind)} {id : Nat}
    (h : id ∉ l.map Prod.fst) : l.filter (fun c => c.1 = id) = [] := by
  induction l with
  | nil => simp
  | cons a t ih =>
    simp only [List.map_cons, List.mem_cons] at h
    push_neg at h
    simp [Ne.symm h.1, ih h.2]

theorem nodup_append_singleton {l : List Nat} {a : Nat} (h : l.Nodup) (ha : a ∉ l) :
    (l ++ [a]).Nodup := by
  rw [List.nodup_append]
  refine ⟨h, List.nodup_singleton a, ?_⟩
  intro x hx hxa
  simp only [List.mem_singleton] at hxa
  subst hxa
  exact ha hx

theorem chanStep_inv {s : Chan} (e : ChanEv) (hinv : ChanInv s) :
    ChanInv (chanStep s e) := by
  obtain ⟨hpos, h1, h2, h3, h4, h5⟩ := hinv
  cases e with
  | send pid =>
    simp only [chanStep]
    by_cases hc : pid ∈ s.connections
    · rw [if_pos hc]
      refine ⟨by dsimp only; omega, ?_, ?_, ?_, h4, ?_⟩
      · dsimp only
        refine nodup_append_singleton h1 ?_
        intro hmem
        exact absurd (h2 _ hmem).2 (lt_irrefl _)
      · dsimp only
        intro j hj
        rcases List.mem_append.mp hj with hj | hj
        · have := h2 j hj; omega
        · simp only [List.mem_singleton] at hj
          omega
      · dsimp only
        intro c hcm
        have := h3 c hcm; omega
      · dsimp only
        intro j hj
        rcases List.mem_append.mp hj with hj | hj
        · exact h5 j hj
        · simp only [List.mem_singleton] at hj
          subst hj
          intro hmap
          rcases List.mem_map.mp hmap with ⟨c, hcm, hcid⟩
          have := h3 c hcm
          omega
    · rw [if_neg hc]
      exact ⟨hpos, h1, h2, h3, h4, h5⟩
  | response id isErr =>
    simp only [chanStep]
    by_cases hc : id ≠ 0 ∧ id ∈ s.pending
    · rw [if_pos hc]
      refine ⟨hpos, h1.erase id, ?_, ?_, ?_, ?_⟩
      · dsimp only
        intro j hj
        exact h2 j (List.mem_of_mem_erase hj)
      · dsimp only
        intro c hcm
        rcases List.mem_append.mp hcm with hcm | hcm
        · exact h3 c hcm
        · simp only [List.mem_singleton] at hcm
          subst hcm
          exact (h2 id hc.2).2
      · dsimp only
        rw [List.map_append]
        simp only [List.map_cons, List.map_nil]
        exact nodup_append_singleton h4 (h5 id hc.2)
      · dsimp only
        intro j hj
        have hjid : j ≠ id := by
          intro h
          subst h
          exact h1.not_mem_erase hj
        have hjp : j ∈ s.pending := List.mem_of_mem_erase hj
        rw [List.map_append]
        simp only [List.map_cons, List.map_nil, List.mem_append, List.mem_singleton]
        rintro (hmap | hmap)
        · exact h5 j hjp hmap
        · exact hjid hmap
    · rw [if_neg hc]
      exact ⟨hpos, h1, h2, h3, h4, h5⟩
  | timerFire id =>
    simp only [chanStep]
    by_cases hc : id ∈ s.pending
    · rw [if_pos hc]
      refine ⟨hpos, h1.erase id, ?_, ?_, ?_, ?_⟩
      · dsimp only
        intro j hj
        exact h2 j (List.mem_of_mem_erase hj)
      · dsimp only
        intro c hcm
        rcases List.mem_append.mp hcm with hcm | hcm
        · exact h3 c hcm
        · simp only [List.mem_singleton] at hcm
          subst hcm
          exact (h2 id hc).2
      · dsimp only
        rw [List.map_append]
        simp only [List.map_cons, List.map_nil]
        exact nodup_append_singleton h4 (h5 id hc)
      · dsimp only
        intro j hj
        have hjid : j ≠ id := by
          intro h
          subst h
          exact h1.not_mem_erase hj
        have hjp : j ∈ s.pending := List.mem_of_mem_erase hj
        rw [List.map_append]
        simp only [List.map_cons, List.map_nil, List.mem_append, List.mem_singleton]
        rintro (hmap | hmap)
        · exact h5 j hjp hmap
        · exact hjid hmap
    · rw [if_neg hc]
      exact ⟨hpos, h1, h2, h3, h4, h5⟩
  | sockOpen pid =>
    simp only [chanStep]
    by_cases hc : pid ∈ s.connections
    · rw [if_pos hc]
      exact ⟨hpos, h1, h2, h3, h4, h5⟩
    · rw [if_neg hc]
      exact ⟨hpos, h1, h2, h3, h4, h5⟩
  | sockClose pid => exact ⟨hpos, h1, h2, h3, h4, h5⟩
  | sockError pid => exact ⟨hpos, h1, h2, h3, h4, h5⟩

theorem chanRun_inv {s : Chan} (evs : List ChanEv) (hinv : ChanInv s) :
    ChanInv (chanRun s evs) := by
  induction evs generalizing s with
  | nil => exact hinv
  | cons e rest ih => exact ih (chanStep_inv e hinv)

theorem compCount_le_one {s : Chan} (hinv : ChanInv s) (id : Nat) :
    compCount id s ≤ 1 := by
  unfold compCount completionsFor
  rw [filterFst_length_eq_count]
  exact List.nodup_iff_count_le_one.mp hinv.2.2.2.2.1 id

/-- A command id that has been settled exactly once and is no longer
pending. -/
def ChanDone (id : Nat) (s : Chan) : Prop :=
  id ∉ s.pending ∧ (s.completions.map Prod.fst).count id = 1

/-- The lifecycle dichotomy of a registered command id: still pending and
never settled, or settled exactly once. -/
def PendDone (id : Nat) (s : Chan) : Prop :=
  (id ∈ s.pending ∧ id ∉ s.completions.map Prod.fst) ∨ ChanDone id s

theorem done_step {s : Chan} {id : Nat} (e : ChanEv) (hinv : ChanInv s)
    (hd : ChanDone id s) : ChanDone id (chanStep s e) := by
  obtain ⟨hpos, h1, h2, h3, h4, h5⟩ := hinv
  obtain ⟨hnp, hcnt⟩ := hd
  have hmem : id ∈ s.completions.map Prod.fst :=
    List.count_pos_iff.mp (by omega)
  have hlt : id < s.nextId := by
    rcases List.mem_map.mp hmem with ⟨c, hcm, hcid⟩
    have := h3 c hcm
    omega
  cases e with
  | send pid =>
    simp only [chanStep]
    by_cases hc : pid ∈ s.connections
    · rw [if_pos hc]
      refine ⟨?_, hcnt⟩
      dsimp only
      intro hj
      rcases List.mem_append.mp hj with hj | hj
      · exact hnp hj
      · simp only [List.mem_singleton] at hj
        omega
    · rw [if_neg hc]
      exact ⟨hnp, hcnt⟩
  | response j isErr =>
    simp only [chanStep]
    by_cases hc : j ≠ 0 ∧ j ∈ s.pending
    · rw [if_pos hc]
      have hji : j ≠ id := by
        intro h
        subst h
        exact hnp hc.2
      constructor
      · dsimp only
        intro hj
        exact hnp (List.mem_of_mem_erase hj)
      · dsimp only
        rw [List.map_append, List.count_append]
        simp only [List.map_cons, List.map_nil]
        have hz : List.count id [j] = 0 :=
          List.count_eq_zero.mpr (by simp only [List.mem_singleton]; exact fun h => hji h.symm)
        rw [hcnt, hz]
    · rw [if_neg hc]
      exact ⟨hnp, hcnt⟩
  | timerFire j =>
    simp only [chanStep]
    by_cases hc : j ∈ s.pending
    · rw [if_pos hc]
      have hji : j ≠ id := by
        intro h
        subst h
        exact hnp hc
      constructor
      · dsimp only
        intro hj
        exact hnp (List.mem_of_mem_erase hj)
      · dsimp only
        rw [List.map_append, List.count_append]
        simp only [List.map_cons, List.map_nil]
        have hz : List.count id [j] = 0 :=
          List.count_eq_zero.mpr (by simp only [List.mem_singleton]; exact fun h => hji h.symm)
        rw [hcnt, hz]
    · rw [if_neg hc]
      exact ⟨hnp, hcnt⟩
  | sockOpen pid =>
    simp only [chanStep]
    by_cases hc : pid ∈ s.connections
    · rw [if_pos hc]
      exact ⟨hnp, hcnt⟩
    · rw [if_neg hc]
      exact ⟨hnp, hcnt⟩
  | sockClose pid => exact ⟨hnp, hcnt⟩
  | sockError pid => exact ⟨hnp, hcnt⟩

theorem pendDone_step {s : Chan} {id : Nat} (e : ChanEv) (hinv : ChanInv s)
    (hp : PendDone id s) : PendDone id (chanStep s e) := by
  rcases hp with ⟨hmem, hnc⟩ | hd
  · obtain ⟨hpos, h1, h2, h3, h4, h5⟩ := hinv
    cases e with
    | send pid =>
      simp only [chanStep]
      by_cases hc : pid ∈ s.connections
      · rw [if_pos hc]
        exact Or.inl ⟨List.mem_append_left _ hmem, hnc⟩
      · rw [if_neg hc]
        exact Or.inl ⟨hmem, hnc⟩
    | response j isErr =>
      simp only [chanStep]
      by_cases hc : j ≠ 0 ∧ j ∈ s.pending
      · rw [if_pos hc]
        by_cases hji : j = id
        · subst hji
          refine Or.inr ⟨?_, ?_⟩
          · dsimp only
            exact h1.not_mem_erase
          · dsimp only
            rw [List.map_append, List.count_append]
            simp [List.count_eq_zero.mpr hnc]
        · refine Or.inl ⟨?_, ?_⟩
          · dsimp only
            exact (List.mem_erase_of_ne (fun h => hji h.symm)).mpr hmem
          · dsimp only
            rw [List.map_append]
            simp only [List.map_cons, List.map_nil, List.mem_append, List.mem_singleton]
            rintro (h | h)
            · exact hnc h
            · exact hji h.symm
      · rw [if_neg hc]
        exact Or.inl ⟨hmem, hnc⟩
    | timerFire j =>
      simp only [chanStep]
      by_cases hc : j ∈ s.pending
      · rw [if_pos hc]
        by_cases hji : j = id
        · subst hji
          refine Or.inr ⟨?_, ?_⟩
          · dsimp only
            exact h1.not_mem_erase
          · dsimp only
            rw [List.map_append, List.count_append]
            simp [List.count_eq_zero.mpr hnc]
        · refine Or.inl ⟨?_, ?_⟩
          · dsimp only
            exact (List.mem_erase_of_ne (fun h => hji h.symm)).mpr hmem
          · dsimp only
            rw [List.map_append]
            simp only [List.map_cons, List.map_nil, List.mem_append, List.mem_singleton]
            rintro (h | h)
            · exact hnc h
            · exact hji h.symm
      · rw [if_neg hc]
        exact Or.inl ⟨hmem, hnc⟩
    | sockOpen pid =>
      simp only [chanStep]
      by_cases hc : pid ∈ s.connections
      · rw [if_pos hc]
        exact Or.inl ⟨hmem, hnc⟩
      · rw [if_neg hc]
        exact Or.inl ⟨hmem, hnc⟩
    | sockClose pid => exact Or.inl ⟨hmem, hnc⟩
    | sockError pid => exact Or.inl ⟨hmem, hnc⟩
  · exact Or.inr (done_step e hinv hd)

theorem pendDone_run {s : Chan} {id : Nat} (evs : List ChanEv) (hinv : ChanInv s)
    (hp : PendDone id s) : PendDone id (chanRun s evs) := by
  induction evs generalizing s with
  | nil => exact hp
  | cons e rest ih => exact ih (chanStep_inv e hinv) (pendDone_step e hinv hp)

theorem done_run {s : Chan} {id : Nat} (evs : List ChanEv) (hinv : ChanInv s)
    (hd : ChanDone id s) : ChanDone id (chanRun s evs) := by
  induction evs generalizing s with
  | nil => exact hd
  | cons e rest ih => exact ih (chanStep_inv e hinv) (done_step e hinv hd)

theorem fire_makes_done {s : Chan} {id : Nat} (hinv : ChanInv s)
    (hp : PendDone id s) : ChanDone id (chanStep s (.timerFire id)) := by
  rcases hp with ⟨hmem, hnc⟩ | hd
  · simp only [chanStep]
    rw [if_pos hmem]
    constructor
    · dsimp only
      exact hinv.2.1.not_mem_erase
    · dsimp only
      rw [List.map_append, List.count_append]
      simp [List.count_eq_zero.mpr hnc]
  · simp only [chanStep]
    rw [if_neg hd.1]
    exact hd

/-- A command id that is pending with no settlement logged yet. -/
def ChanClean (id : Nat) (s : Chan) : Prop :=
  id ∈ s.pending ∧ completionsFor id s = []

/-- A command id whose only settlement is its timeout rejection. -/
def ChanTimedOnly (id : Nat) (s : Chan) : Prop :=
  id ∉ s.pending ∧ completionsFor id s = [(id, CompKind.timedOut)]

theorem completionsFor_append (id : Nat) (l : List (Nat × CompKind))
    (c : Nat × CompKind) :
    (l ++ [c]).filter (fun x => x.1 = id) =
      l.filter (fun x => x.1 = id) ++ (if c.1 = id then [c] else []) := by
  rw [List.filter_append]
  by_cases h : c.1 = id <;> simp [h]

theorem timedOnly_step {s : Chan} {id : Nat} (e : ChanEv) (hinv : ChanInv s)
    (ht : ChanTimedOnly id s) : ChanTimedOnly id (chanStep s e) := by
  obtain ⟨hpos, h1, h2, h3, h4, h5⟩ := hinv
  obtain ⟨hnp, hfil⟩ := ht
  have hmemc : (id, CompKind.timedOut) ∈ s.completions := by
    have hm : (id, CompKind.timedOut) ∈ s.completions.filter (fun c => c.1 = id) := by
      rw [show s.completions.filter (fun c => c.1 = id) = [(id, CompKind.timedOut)] from hfil]
      simp
    exact List.mem_of_mem_filter hm
  have hlt : id < s.nextId := h3 _ hmemc
  cases e with
  | send pid =>
    simp only [chanStep]
    by_cases hc : pid ∈ s.connections
    · rw [if_pos hc]
      refine ⟨?_, hfil⟩
      dsimp only
      intro hj
      rcases List.mem_append.mp hj with hj | hj
      · exact hnp hj
      · simp only [List.mem_singleton] at hj
        omega
    · rw [if_neg hc]
      exact ⟨hnp, hfil⟩
  | response j isErr =>
    simp only [chanStep]
    by_cases hc : j ≠ 0 ∧ j ∈ s.pending
    · rw [if_pos hc]
      have hji : j ≠ id := by
        intro h
        subst h
        exact hnp hc.2
      constructor
      · dsimp only
        intro hj
        exact hnp (List.mem_of_mem_erase hj)
      · simp only [completionsFor] at hfil ⊢
        rw [completionsFor_append, hfil]
        simp [hji]
    · rw [if_neg hc]
      exact ⟨hnp, hfil⟩
  | timerFire j =>
    simp only [chanStep]
    by_cases hc : j ∈ s.pending
    · rw [if_pos hc]
      have hji : j ≠ id := by
        intro h
        subst h
        exact hnp hc
      constructor
      · dsimp only
        intro hj
        exact hnp (List.mem_of_mem_erase hj)
      · simp only [completionsFor] at hfil ⊢
        rw [completionsFor_append, hfil]
        simp [hji]
    · rw [if_neg hc]
      exact ⟨hnp, hfil⟩
  | sockOpen pid =>
    simp only [chanStep]
    by_cases hc : pid ∈ s.connections
    · rw [if_pos hc]
      exact ⟨hnp, hfil⟩
    · rw [if_neg hc]
      exact ⟨hnp, hfil⟩
  | sockClose pid => exact ⟨hnp, hfil⟩
  | sockError pid => exact ⟨hnp, hfil⟩

theorem cleanTimed_step {s : Chan} {id : Nat} (e : ChanEv) (hinv : ChanInv s)
    (h : ChanClean id s ∨ ChanTimedOnly id s)
    (hne : ∀ b, e ≠ ChanEv.response id b) :
    ChanClean id (chanStep s e) ∨ ChanTimedOnly id (chanStep s e) := by
  rcases h with ⟨hmem, hfil⟩ | ht
  · obtain ⟨hpos, h1, h2, h3, h4, h5⟩ := hinv
    cases e with
    | send pid =>
      simp only [chanStep]
      by_cases hc : pid ∈ s.connections
      · rw [if_pos hc]
        exact Or.inl ⟨List.mem_append_left _ hmem, hfil⟩
      · rw [if_neg hc]
        exact Or.inl ⟨hmem, hfil⟩
    | response j isErr =>
      simp only [chanStep]
      have hji : j ≠ id := by
        intro h
        subst h
        exact hne isErr rfl
      by_cases hc : j ≠ 0 ∧ j ∈ s.pending
      · rw [if_pos hc]
        refine Or.inl ⟨?_, ?_⟩
        · dsimp only
          exact (List.mem_erase_of_ne (fun h => hji h.symm)).mpr hmem
        · simp only [completionsFor] at hfil ⊢
          rw [completionsFor_append, hfil]
          simp [hji]
      · rw [if_neg hc]
        exact Or.inl ⟨hmem, hfil⟩
    | timerFire j =>
      simp only [chanStep]
      by_cases hji : j = id
      · subst hji
        rw [if_pos hmem]
        refine Or.inr ⟨?_, ?_⟩
        · dsimp only
          exact h1.not_mem_erase
        · simp only [completionsFor] at hfil ⊢
          rw [completionsFor_append, hfil]
          simp
      · by_cases hc : j ∈ s.pending
        · rw [if_pos hc]
          refine Or.inl ⟨?_, ?_⟩
          · dsimp only
            exact (List.mem_erase_of_ne (fun h => hji h.symm)).mpr hmem
          · simp only [completionsFor] at hfil ⊢
            rw [completionsFor_append, hfil]
            simp [hji]
        · rw [if_neg hc]
          exact Or.inl ⟨hmem, hfil⟩
    | sockOpen pid =>
      simp only [chanStep]
      by_cases hc : pid ∈ s.connections
      · rw [if_pos hc]
        exact Or.inl ⟨hmem, hfil⟩
      · rw [if_neg hc]
        exact Or.inl ⟨hmem, hfil⟩
    | sockClose pid => exact Or.inl ⟨hmem, hfil⟩
    | sockError pid => exact Or.inl ⟨hmem, hfil⟩
  · exact Or.inr (timedOnly_step e hinv ht)

theorem cleanTimed_run {s : Chan} {id : Nat} (evs : List ChanEv) (hinv : ChanInv s)
    (h : ChanClean id s ∨ ChanTimedOnly id s)
    (hne : ∀ b, ChanEv.response id b ∉ evs) :
    ChanClean id (chanRun s evs) ∨ ChanTimedOnly id (chanRun s evs) := by
  induction evs generalizing s with
  | nil => exact h
  | cons e rest ih =>
    refine ih (chanStep_inv e hinv)
      (cleanTimed_step e hinv h (fun b hb => hne b (by rw [hb]; exact List.mem_cons_self _ _)))
      (fun b hb => hne b (List.mem_cons_of_mem _ hb))

theorem timedOnly_run {s : Chan} {id : Nat} (evs : List ChanEv) (hinv : ChanInv s)
    (ht : ChanTimedOnly id s) : ChanTimedOnly id (chanRun s evs) := by
  induction evs generalizing s with
  | nil => exact ht
  | cons e rest ih => exact ih (chanStep_inv e hinv) (timedOnly_step e hinv ht)

theorem fire_makes_timedOnly {s : Chan} {id : Nat} (hinv : ChanInv s)
    (h : ChanClean id s ∨ ChanTimedOnly id s) :
    ChanTimedOnly id (chanStep s (.timerFire id)) := by
  rcases h with ⟨hmem, hfil⟩ | ht
  · simp only [chanStep]
    rw [if_pos hmem]
    constructor
    · dsimp only
      exact hinv.2.1.not_mem_erase
    · simp only [completionsFor] at hfil ⊢
      rw [completionsFor_append, hfil]
      simp
  · simp only [chanStep]
    rw [if_neg ht.1]
    exact ht

theorem chanRun_append (s : Chan) (a b : List ChanEv) :
    chanRun s (a ++ b) = chanRun (chanRun s a) b :=
  List.foldl_append _ _ _ _

theorem chanRun_cons (s : Chan) (e : ChanEv) (rest : List ChanEv) :
    chanRun s (e :: rest) = chanRun (chanStep s e) rest := rfl

/-- C1: over any event sequence from a reachable channel state, a command id
is settled at most once; a pending id whose 2000ms timer fires in the
sequence is settled exactly once and evicted (resolved by its matching
response if that arrived first, otherwise rejected by the timeout); a
response for an id that is no longer pending changes nothing; and a response
settles exactly the pending entry carrying its own id, regardless of which
other commands are in flight. -/
theorem sendCommand_exactly_once_per_id (s : Chan) (evs : List ChanEv) (id : Nat)
    (isErr : Bool) (hinv : ChanInv s) :
    compCount id (chanRun s evs) ≤ 1 ∧
    (id ∈ s.pending → ChanEv.timerFire id ∈ evs →
      compCount id (chanRun s evs) = 1 ∧ id ∉ (chanRun s evs).pending) ∧
    (id ∉ s.pending → chanStep s (.response id isErr) = s) ∧
    (id ∈ s.pending →
      (chanStep s (.response id isErr)).pending = s.pending.erase id ∧
      (chanStep s (.response id isErr)).completions
        = s.completions ++ [(id, if isErr then CompKind.rejectedErr else CompKind.resolved)]) := by
  refine ⟨compCount_le_one (chanRun_inv evs hinv) id, ?_, ?_, ?_⟩
  · intro hmem htimer
    obtain ⟨l1, l2, hsplit⟩ := List.append_of_mem htimer
    have hpd0 : PendDone id s := Or.inl ⟨hmem, hinv.2.2.2.2.2 id hmem⟩
    have hinv1 : ChanInv (chanRun s l1) := chanRun_inv l1 hinv
    have hpd1 : PendDone id (chanRun s l1) := pendDone_run l1 hinv hpd0
    have hd2 : ChanDone id (chanStep (chanRun s l1) (.timerFire id)) :=
      fire_makes_done hinv1 hpd1
    have hinv2 : ChanInv (chanStep (chanRun s l1) (.timerFire id)) :=
      chanStep_inv _ hinv1
    have hd3 : ChanDone id
        (chanRun (chanStep (chanRun s l1) (.timerFire id)) l2) :=
      done_run l2 hinv2 hd2
    rw [hsplit, chanRun_append, chanRun_cons]
    refine ⟨?_, hd3.1⟩
    unfold compCount completionsFor
    rw [filterFst_length_eq_count]
    exact hd3.2
  · intro hnm
    simp only [chanStep]
    rw [if_neg (fun hcon => hnm hcon.2)]
  · intro hmem
    have h0 : id ≠ 0 := by
      have := hinv.2.2.1 id hmem
      omega
    simp only [chanStep]
    rw [if_pos ⟨h0, hmem⟩]
    exact ⟨rfl, rfl⟩

/-- Witness for C1 at a concrete input: from a state with pending ids 1 and
2, the sequence consisting of the timeout of id 1 settles id 1 exactly once
and evicts it. -/
theorem sendCommand_exactly_once_per_id_witness :
    compCount 1 (chanRun ⟨3, [1, 2], [], ["p"]⟩ [ChanEv.timerFire 1]) = 1 ∧
    1 ∉ (chanRun ⟨3, [1, 2], [], ["p"]⟩ [ChanEv.timerFire 1]).pending :=
  (sendCommand_exactly_once_per_id ⟨3, [1, 2], [], ["p"]⟩ [ChanEv.timerFire 1] 1 false
    (by decide)).2.1 (by decide) (by decide)

/-- C3: a socket close (or error) removes exactly that connection from the
connections table, and every command still pending at that moment is
subsequently rejected as a consequence: the closed socket delivers no further
responses for those ids, so each one's 2000ms timer finds it still pending
and settles it exactly once, with the timeout rejection. -/
theorem socket_close_fails_pending (s : Chan) (pid : String) (evs : List ChanEv)
    (S : List Nat) (hinv : ChanInv s)
    (hS : ∀ id ∈ S, id ∈ s.pending)
    (hT : ∀ id ∈ S, ChanEv.timerFire id ∈ evs)
    (hNR : ∀ id ∈ S, ChanEv.response id true ∉ evs ∧ ChanEv.response id false ∉ evs) :
    (chanStep s (.sockClose pid)).connections = s.connections.erase pid ∧
    (chanStep s (.sockError pid)).connections = s.connections.erase pid ∧
    ∀ id ∈ S,
      compCount id (chanRun (chanStep s (.sockClose pid)) evs) = 1 ∧
      (id, CompKind.timedOut) ∈ (chanRun (chanStep s (.sockClose pid)) evs).completions := by
  refine ⟨rfl, rfl, ?_⟩
  intro id hid
  have hinv' : ChanInv (chanStep s (.sockClose pid)) := chanStep_inv _ hinv
  have hclean : ChanClean id (chanStep s (.sockClose pid)) :=
    ⟨hS id hid, filterFst_eq_nil (hinv.2.2.2.2.2 id (hS id hid))⟩
  obtain ⟨hnrT, hnrF⟩ := hNR id hid
  obtain ⟨l1, l2, hsplit⟩ := List.append_of_mem (hT id hid)
  have hne1 : ∀ b, ChanEv.response id b ∉ l1 := by
    intro b hb
    cases b
    · exact hnrF (by rw [hsplit]; exact List.mem_append_left _ hb)
    · exact hnrT (by rw [hsplit]; exact List.mem_append_left _ hb)
  have hct1 := cleanTimed_run l1 hinv' (Or.inl hclean) hne1
  have hinv1 := chanRun_inv l1 hinv'
  have ht2 : ChanTimedOnly id
      (chanStep (chanRun (chanStep s (.sockClose pid)) l1) (.timerFire id)) :=
    fire_makes_timedOnly hinv1 hct1
  have hinv2 := chanStep_inv (ChanEv.timerFire id) hinv1
  have ht3 : ChanTimedOnly id
      (chanRun (chanStep (chanRun (chanStep s (.sockClose pid)) l1) (.timerFire id)) l2) :=
    timedOnly_run l2 hinv2 ht2
  rw [hsplit, chanRun_append, chanRun_cons]
  constructor
  · unfold compCount
    rw [ht3.2]
    rfl
  · have hm : (id, CompKind.timedOut) ∈ completionsFor id
        (chanRun (chanStep (chanRun (chanStep s (.sockClose pid)) l1) (.timerFire id)) l2) := by
      rw [ht3.2]
      simp
    exact List.mem_of_mem_filter hm

/-- Witness for C3 at a concrete input: closing connection "p" removes it
from the table, and the pending command 1 is then rejected exactly once by
its timeout. -/
theorem socket_close_fails_pending_witness :
    (chanStep ⟨2, [1], [], ["p", "q"]⟩ (ChanEv.sockClose "p")).connections = ["q"] ∧
    compCount 1 (chanRun (chanStep ⟨2, [1], [], ["p", "q"]⟩ (ChanEv.sockClose "p"))
        [ChanEv.timerFire 1]) = 1 := by
  have h := socket_close_fails_pending ⟨2, [1], [], ["p", "q"]⟩ "p" [ChanEv.timerFire 1] [1]
      (by decide) (by decide) (by decide) (by decide)
  refine ⟨?_, (h.2.2 1 (by decide)).1⟩
  rw [h.1]
  rfl

end AutoAccept
